import Mathlib

/-!
Verification development for the minecraft-plugin-manager repository.

The Python modules under core/backend/minecraft_plugin_manager are shallowly
embedded below: pure string/"dict" manipulation becomes Lean functions over
strings and association lists (Python dicts preserve insertion order, so an
ordered association list is the faithful model), and I/O collaborators
(subprocess/SSH probes, the HTTP clients, hashlib, the filesystem) become
explicit environment parameters whose results the embedded control flow
consumes exactly as the source does.
-/

set_option maxHeartbeats 1000000

namespace MPM

/-- Association-list lookup modelling Python dict lookup and membership
(no duplicate keys arise in the modelled states; lookup finds the first
binding). -/
def alookup {α : Type} (k : String) : List (String × α) → Option α
  | [] => none
  | (k', v) :: rest => if k' = k then some v else alookup k rest

/-- Python dict assignment d[k] = v: overwrite in place if the key exists,
otherwise append the new binding at the end (insertion order). -/
def aset {α : Type} (k : String) (v : α) : List (String × α) → List (String × α)
  | [] => [(k, v)]
  | (k', v') :: rest => if k' = k then (k, v) :: rest else (k', v') :: aset k v rest

/-- Python idiom d.setdefault(k, []).append(v): append v to the list bound to
k, creating the binding at the end if absent. -/
def aappend {α : Type} (k : String) (v : α) : List (String × List α) → List (String × List α)
  | [] => [(k, [v])]
  | (k', vs) :: rest =>
    if k' = k then (k', vs ++ [v]) :: rest else (k', vs) :: aappend k v rest

/-! ## VersionComparator: PluginDownloader.normalize_version (api_clients.py 217-230)

The source performs a single Python re.sub(r'-build(\d+)', r'-b\1', version):
scan left to right; at each occurrence of "-build" immediately followed by at
least one digit, replace "-build" ++ digits by "-b" ++ digits, where the digit
run is maximal; continue scanning after the replaced text (matches do not
overlap). -/

/-- Whether a character list starts with "build" followed by a digit, i.e.
whether the regex -build(\d+) matches here given that the '-' was just seen. -/
def buildMatch : List Char → Bool
  | 'b' :: 'u' :: 'i' :: 'l' :: 'd' :: d :: _ => d.isDigit
  | _ => false

lemma dropWhile_length_le {α : Type} (p : α → Bool) (l : List α) :
    (l.dropWhile p).length ≤ l.length := by
  induction l with
  | nil => simp
  | cons x xs ih =>
    simp only [List.dropWhile]
    cases hp : p x
    · simp
    · simp only [List.length_cons]
      omega

/-- The re.sub scan of normalize_version over the character list of the
version string, with a fuel argument making the recursion structural (one
unit of fuel per scan step; each step consumes at least one character, so
fuel equal to the list length always suffices and the zero-fuel fallback is
never reached from subBuild). -/
def subBuildAux : List Char → Nat → List Char
  | l, 0 => l
  | [], _ + 1 => []
  | c :: rest, fuel + 1 =>
    if c = '-' ∧ buildMatch rest then
      '-' :: 'b' ::
        ((rest.drop 5).takeWhile Char.isDigit ++
          subBuildAux ((rest.drop 5).dropWhile Char.isDigit) fuel)
    else
      c :: subBuildAux rest fuel

/-- The re.sub scan of normalize_version over a character list. -/
def subBuild (l : List Char) : List Char :=
  subBuildAux l l.length

lemma subBuildAux_fuel (fuel : Nat) :
    ∀ (l : List Char) (fuel' : Nat), l.length ≤ fuel → l.length ≤ fuel' →
      subBuildAux l fuel = subBuildAux l fuel' := by
  induction fuel with
  | zero =>
    intro l fuel' h _
    have : l = [] := List.length_eq_zero.mp (Nat.le_zero.mp h)
    subst this
    cases fuel' <;> rfl
  | succ n ih =>
    intro l fuel' h h'
    cases l with
    | nil => cases fuel' <;> rfl
    | cons c rest =>
      cases fuel' with
      | zero => simp at h'
      | succ m =>
        simp only [subBuildAux]
        have hr2 : ((rest.drop 5).dropWhile Char.isDigit).length ≤ rest.length := by
          have h1 := dropWhile_length_le Char.isDigit (rest.drop 5)
          have h2 : (rest.drop 5).length ≤ rest.length := by
            simp [List.length_drop]
          omega
        have hrest : rest.length ≤ n := by
          simp only [List.length_cons] at h
          omega
        have hrest' : rest.length ≤ m := by
          simp only [List.length_cons] at h'
          omega
        rw [ih rest m hrest hrest', ih ((rest.drop 5).dropWhile Char.isDigit) m
          (le_trans hr2 hrest) (le_trans hr2 hrest')]

/-- Unfolding lemma for subBuild on a cons cell, phrased without fuel. -/
lemma subBuild_cons (c : Char) (rest : List Char) :
    subBuild (c :: rest) =
      if c = '-' ∧ buildMatch rest then
        '-' :: 'b' ::
          ((rest.drop 5).takeWhile Char.isDigit ++
            subBuild ((rest.drop 5).dropWhile Char.isDigit))
      else
        c :: subBuild rest := by
  have hr2 : ((rest.drop 5).dropWhile Char.isDigit).length ≤ rest.length := by
    have h1 := dropWhile_length_le Char.isDigit (rest.drop 5)
    have h2 : (rest.drop 5).length ≤ rest.length := by
      simp [List.length_drop]
    omega
  show subBuildAux (c :: rest) (rest.length + 1) = _
  simp only [subBuildAux]
  rw [subBuildAux_fuel rest.length ((rest.drop 5).dropWhile Char.isDigit)
    ((rest.drop 5).dropWhile Char.isDigit).length hr2 (le_refl _)]
  rfl

/-- PluginDownloader.normalize_version: e.g. "2.9.0-build981" becomes
"2.9.0-b981". -/
def normalize_version (version : String) : String :=
  String.mk (subBuild version.data)

example : normalize_version "2.9.0-build981" = "2.9.0-b981" := by decide

example : normalize_version "1.0" = "1.0" := by decide

lemma buildMatch_shape (L : List Char) (h : buildMatch L = true) :
    ∃ d t, L = 'b' :: 'u' :: 'i' :: 'l' :: 'd' :: d :: t ∧ d.isDigit = true := by
  unfold buildMatch at h
  split at h
  · next d t => exact ⟨d, t, rfl, h⟩
  · exact absurd h (by simp)

lemma subBuild_head (xs : List Char) (c : Char) (t : List Char)
    (h : subBuild xs = c :: t) (hc : c ≠ '-') :
    ∃ t', xs = c :: t' ∧ subBuild t' = t := by
  cases xs with
  | nil => exact absurd h (by simp [subBuild, subBuildAux])
  | cons x rest =>
    rw [subBuild_cons] at h
    by_cases hm : x = '-' ∧ buildMatch rest
    · rw [if_pos hm] at h
      injection h with h1 _
      exact absurd h1.symm hc
    · rw [if_neg hm] at h
      injection h with h1 h2
      exact ⟨rest, by rw [h1], h2⟩

lemma buildMatch_subBuild {xs : List Char} (h : buildMatch (subBuild xs) = true) :
    buildMatch xs = true := by
  obtain ⟨d, t, heq, hd⟩ := buildMatch_shape _ h
  have hdne : d ≠ '-' := by
    intro e
    rw [e] at hd
    exact absurd hd (by decide)
  obtain ⟨r1, hx1, hs1⟩ := subBuild_head xs 'b' _ heq (by decide)
  obtain ⟨r2, hx2, hs2⟩ := subBuild_head r1 'u' _ hs1 (by decide)
  obtain ⟨r3, hx3, hs3⟩ := subBuild_head r2 'i' _ hs2 (by decide)
  obtain ⟨r4, hx4, hs4⟩ := subBuild_head r3 'l' _ hs3 (by decide)
  obtain ⟨r5, hx5, hs5⟩ := subBuild_head r4 'd' _ hs4 (by decide)
  obtain ⟨r6, hx6, _⟩ := subBuild_head r5 d _ hs5 hdne
  rw [hx1, hx2, hx3, hx4, hx5, hx6]
  show buildMatch ('b' :: 'u' :: 'i' :: 'l' :: 'd' :: d :: r6) = true
  show d.isDigit = true
  exact hd

lemma subBuild_append_nodash (xs ys : List Char) (h : ∀ c ∈ xs, c ≠ '-') :
    subBuild (xs ++ ys) = xs ++ subBuild ys := by
  induction xs with
  | nil => simp
  | cons c rest ih =>
    have hc : c ≠ '-' := h c (by simp)
    rw [List.cons_append, subBuild_cons, if_neg, ih (fun a ha => h a (by simp [ha]))]
    · simp
    · intro hcontra
      exact hc hcontra.1

lemma isDigit_ne_dash {c : Char} (h : c.isDigit = true) : c ≠ '-' := by
  intro e
  rw [e] at h
  exact absurd h (by decide)

lemma subBuild_idem_bounded :
    ∀ (n : Nat) (xs : List Char), xs.length ≤ n →
      subBuild (subBuild xs) = subBuild xs := by
  intro n
  induction n with
  | zero =>
    intro xs h
    have : xs = [] := List.length_eq_zero.mp (Nat.le_zero.mp h)
    subst this
    rfl
  | succ n ih =>
    intro xs h
    cases xs with
    | nil => rfl
    | cons c rest =>
      have hrest : rest.length ≤ n := by
        simp only [List.length_cons] at h
        omega
      by_cases hm : c = '-' ∧ buildMatch rest
      · obtain ⟨hc, hbm⟩ := hm
        subst hc
        obtain ⟨d0, t0, hshape, hd0⟩ := buildMatch_shape rest hbm
        subst hshape
        rw [subBuild_cons, if_pos ⟨rfl, hbm⟩]
        have hdrop : (('b' :: 'u' :: 'i' :: 'l' :: 'd' :: d0 :: t0).drop 5) = d0 :: t0 := rfl
        rw [hdrop, List.takeWhile_cons_of_pos hd0, List.dropWhile_cons_of_pos hd0]
        have hds : ∀ a ∈ 'b' :: d0 :: t0.takeWhile Char.isDigit, a ≠ '-' := by
          intro a ha
          rcases List.mem_cons.mp ha with h1 | h2
          · subst h1; decide
          · rcases List.mem_cons.mp h2 with h3 | h4
            · subst h3; exact isDigit_ne_dash hd0
            · exact isDigit_ne_dash (List.mem_takeWhile_imp h4)
        have hgoal :
            subBuild ('-' :: 'b' :: (d0 :: t0.takeWhile Char.isDigit ++
                subBuild (t0.dropWhile Char.isDigit))) =
              '-' :: 'b' :: (d0 :: t0.takeWhile Char.isDigit ++
                subBuild (t0.dropWhile Char.isDigit)) := by
          rw [subBuild_cons, if_neg]
          · have hpre :
                subBuild ('b' :: d0 :: (t0.takeWhile Char.isDigit ++
                    subBuild (t0.dropWhile Char.isDigit))) =
                  'b' :: d0 :: (t0.takeWhile Char.isDigit ++
                    subBuild (t0.dropWhile Char.isDigit)) := by
              have := subBuild_append_nodash
                ('b' :: d0 :: t0.takeWhile Char.isDigit)
                (subBuild (t0.dropWhile Char.isDigit)) hds
              simp only [List.cons_append] at this
              rw [this]
              have htl : (t0.dropWhile Char.isDigit).length ≤ n := by
                have h1 := dropWhile_length_le Char.isDigit t0
                simp only [List.length_cons] at hrest
                omega
              rw [ih (t0.dropWhile Char.isDigit) htl]
            simpa using hpre
          · intro hcon
            obtain ⟨d', t', heq', hd'⟩ := buildMatch_shape _ hcon.2
            injection heq' with _ heq2
            injection heq2 with h20 _
            rw [h20] at hd0
            exact absurd hd0 (by decide)
        simpa using hgoal
      · rw [subBuild_cons, if_neg hm, subBuild_cons, if_neg]
        · rw [ih rest hrest]
        · intro hcon
          exact hm ⟨hcon.1, buildMatch_subBuild hcon.2⟩

/-- Idempotence of the re.sub scan. -/
lemma subBuild_idem (xs : List Char) : subBuild (subBuild xs) = subBuild xs :=
  subBuild_idem_bounded xs.length xs (le_refl _)

/-- C9: normalize_version is idempotent: for every version string v,
normalize_version (normalize_version v) = normalize_version v. -/
theorem c9_normalize_version_idempotent (v : String) :
    normalize_version (normalize_version v) = normalize_version v := by
  unfold normalize_version
  show String.mk (subBuild (subBuild v.data)) = _
  rw [subBuild_idem]

/-! ## ArtifactFetcher: PluginDownloader.download (api_clients.py 134-191)

hashlib is an external library: the environment supplies the digest function
(hash algorithm name and file bytes to hex string). The HTTP transfer is the
other collaborator: its outcome is either the fully streamed byte content or
a network failure (requests.RequestException). The filesystem at the single
destination path DOWNLOADS_DIR/filename is modelled as the optional byte
content present there. -/

/-- Environment for the downloader: PluginDownloader.calculate_hash delegates
to hashlib, so the digest is a parameter (hash_type, file bytes to lowercase
hex digest in the real library). -/
structure DlEnv where
  digest : String → List Nat → String

/-- PluginDownloader.download. Arguments beyond the source signature model
the collaborators: fetched is the HTTP result (none = RequestException),
pre is the pre-existing content at the destination path. Result: the returned
path (none = failure) and the content left at the destination. On fetch
failure the partial/pre-existing file is unlinked if present; on hash
mismatch the written file is unlinked and no path is returned. -/
def download (env : DlEnv) (dry_run : Bool) (fetched : Option (List Nat))
    (pre : Option (List Nat)) (filename : String)
    (expected_hash : Option String) (hash_type : String) :
    Option String × Option (List Nat) :=
  if dry_run then
    (some filename, pre)
  else
    match fetched with
    | none => (none, none)
    | some bs =>
      match expected_hash with
      | none => (some filename, some bs)
      | some h =>
        if env.digest hash_type bs = h then (some filename, some bs)
        else (none, none)

/-- C5: in live mode, a download whose expected hash does not match the
digest of the downloaded bytes returns no path and leaves no file at the
destination. -/
theorem c5_hash_mismatch_no_file (env : DlEnv) (bs : List Nat)
    (pre : Option (List Nat)) (filename h hash_type : String)
    (hne : env.digest hash_type bs ≠ h) :
    download env false (some bs) pre filename (some h) hash_type = (none, none) := by
  simp [download, hne]

/-- Witness for C5 at a concrete environment and input. -/
theorem c5_hash_mismatch_no_file_witness :
    (DlEnv.mk fun _ _ => "aa").digest "sha256" [0] ≠ "bb" ∧
    download (DlEnv.mk fun _ _ => "aa") false (some [0]) none "x.jar"
      (some "bb") "sha256" = (none, none) :=
  ⟨by decide, c5_hash_mismatch_no_file _ _ _ _ _ _ (by decide)⟩

/-- Environment recording that the real hexdigest of the byte [7] under
sha256 is some fixed lowercase hex string (hashlib.hexdigest always returns
lowercase hex). -/
def lowerDigestEnv : DlEnv := DlEnv.mk fun _ _ => "ab"

/-- C6 counterexample: an expected hash differing from the computed
(lowercase) digest only in letter case is NOT accepted: the comparison in
the source is plain ==, so the file is deleted and no path returned. -/
theorem c6_counterexample :
    "AB".data.map Char.toLower = "ab".data ∧ "AB" ≠ "ab" ∧
    download lowerDigestEnv false (some [7]) none "x.jar" (some "AB") "sha256"
      = (none, none) := by
  refine ⟨by decide, by decide, by decide⟩

/-- C6 amended: hash verification compares the computed digest to
expected_hash by exact (case-sensitive) string equality: in live mode with a
successful fetch and a provided expected hash, the download is accepted
(path returned, file kept) exactly when the expected hash equals the
computed digest byte for byte. -/
theorem c6_hash_comparison_exact (env : DlEnv) (bs : List Nat)
    (pre : Option (List Nat)) (filename h hash_type : String) :
    (download env false (some bs) pre filename (some h) hash_type).1
        = some filename ↔
      env.digest hash_type bs = h := by
  by_cases hd : env.digest hash_type bs = h <;> simp [download, hd]

/-! ## DeploymentExecutor backup naming and RollbackManager restore target
(deployment.py 127-128 and 264-278)

deploy_to_server names the backup of an existing remote jar
remote_jar_name.TIMESTAMP.BAK; rollback_deployment derives the restore
target of a backup file as backup_file.rsplit('.', 2)[0] + '.jar'. -/

/-- Backup file name built by deploy_to_server (deployment.py line 128). -/
def deploy_backup_name (remote_jar_name timestamp : String) : String :=
  remote_jar_name ++ "." ++ timestamp ++ ".BAK"

/-- Split a character list on the dot character, Python str.split('.')
semantics: the empty list yields one empty part. -/
def splitDots : List Char → List (List Char)
  | [] => [[]]
  | x :: xs =>
    match splitDots xs with
    | [] => [[]]
    | part :: rest => if x = '.' then [] :: part :: rest else (x :: part) :: rest

/-- Join parts with dots, Python '.'.join semantics. -/
def joinDots : List (List Char) → List Char
  | [] => []
  | [p] => p
  | p :: ps => p ++ '.' :: joinDots ps

/-- Python s.rsplit('.', 2)[0]: everything before the last two dots (or the
whole string / the part before the single dot when fewer dots exist). -/
def rsplitDot2First (s : String) : String :=
  let parts := splitDots s.data
  let keep := if parts.length ≤ 2 then 1 else parts.length - 2
  String.mk (joinDots (parts.take keep))

/-- Restore target computed by rollback_deployment (deployment.py line 268):
backup_file.rsplit('.', 2)[0] + '.jar'. -/
def rollback_original_name (backup_file : String) : String :=
  rsplitDot2First backup_file ++ ".jar"

/-- C2: the backup/restore round trip does NOT return to the original
filename: for a deployed jar named N (always ending in .jar), the backup is
N.TIMESTAMP.BAK, but stripping the last two dot components leaves N itself,
and the code then appends another ".jar", so rollback restores over N.jar
instead of N. Evaluated at a concrete failing input. -/
theorem c2_rollback_restore_target_bug :
    deploy_backup_name "ViaVersion-5.0.0.jar" "20250101120000"
        = "ViaVersion-5.0.0.jar.20250101120000.BAK" ∧
    rollback_original_name "ViaVersion-5.0.0.jar.20250101120000.BAK"
        = "ViaVersion-5.0.0.jar.jar" ∧
    "ViaVersion-5.0.0.jar.jar" ≠ "ViaVersion-5.0.0.jar" := by
  refine ⟨by decide, by decide, by decide⟩

/-! ## CompatibilityGate: DeploymentManager.check_infrastructure_compatibility
(deployment.py 340-399) with COMPATIBILITY_MATRIX (config.py 30-47)

The Velocity build probe (get_velocity_build_number, an SSH log scrape) is a
collaborator: its result is the velocity_build parameter (none = the probe
could not determine a build). The source memoizes the probe per run; with
the result as a fixed parameter the memoization is behaviourally invisible. -/

/-- One infrastructure requirement of COMPATIBILITY_MATRIX:
requires.velocity.min_build and .reason. -/
structure VelocityRequirement where
  min_build : Nat
  reason : String
deriving DecidableEq, Repr

/-- One COMPATIBILITY_MATRIX entry: the dict under the "requires" key. -/
structure CompatRule where
  requires : List (String × VelocityRequirement)
deriving DecidableEq, Repr

/-- COMPATIBILITY_MATRIX from config.py lines 30-47. -/
def COMPATIBILITY_MATRIX : List (String × CompatRule) :=
  [("Geyser-Velocity",
      CompatRule.mk [("velocity", VelocityRequirement.mk 500
        "Geyser 2.9.0+ requires Adventure library API (ComponentFlattener.nestingLimit)")]),
   ("floodgate-velocity",
      CompatRule.mk [("velocity", VelocityRequirement.mk 400
        "Modern floodgate requires Velocity 3.4.0+")])]

/-- Issues contributed by one plugin in the loop of
check_infrastructure_compatibility: nothing when the plugin has no matrix
entry or no velocity requirement; the warning string when the probe could
not determine a build; the hard failure string when the detected build is
below the minimum. -/
def compat_issue_for (matrix : List (String × CompatRule))
    (velocity_build : Option Nat) (plugin_name : String) : List String :=
  match alookup plugin_name matrix with
  | none => []
  | some rule =>
    match alookup "velocity" rule.requires with
    | none => []
    | some req =>
      match velocity_build with
      | none =>
        ["⚠ " ++ plugin_name ++ ": Cannot verify Velocity version (could not read logs)"]
      | some b =>
        if b < req.min_build then
          ["✗ " ++ plugin_name ++ ": Requires Velocity build "
            ++ toString req.min_build ++ "+, but detected build " ++ toString b
            ++ "\n  Reason: " ++ req.reason
            ++ "\n  Solution: Update Velocity proxy first using ./update-velocity.sh"]
        else []

/-- DeploymentManager.check_infrastructure_compatibility: collect the issue
list over the candidate plugins in order and return ok exactly when the
collected list (hard failures AND probe warnings alike) is empty. -/
def check_infrastructure_compatibility (matrix : List (String × CompatRule))
    (velocity_build : Option Nat) (plugins_to_deploy : List String) :
    Bool × List String :=
  let issues := plugins_to_deploy.foldl
    (fun acc p => acc ++ compat_issue_for matrix velocity_build p) []
  if issues.isEmpty then (true, []) else (false, issues)

lemma foldl_append_eq_nil_iff {α β : Type} (f : α → List β) (l : List α)
    (acc : List β) :
    l.foldl (fun a p => a ++ f p) acc = [] ↔ acc = [] ∧ ∀ p ∈ l, f p = [] := by
  induction l generalizing acc with
  | nil => simp
  | cons x xs ih =>
    simp only [List.foldl_cons, ih, List.append_eq_nil, List.mem_cons]
    constructor
    · rintro ⟨⟨h1, h2⟩, h3⟩
      exact ⟨h1, fun p hp => hp.elim (fun e => e ▸ h2) (h3 p)⟩
    · rintro ⟨h1, h2⟩
      exact ⟨⟨h1, h2 x (Or.inl rfl)⟩, fun p hp => h2 p (Or.inr hp)⟩

lemma compat_issue_for_ne_nil_iff (matrix : List (String × CompatRule))
    (vb : Option Nat) (p : String) :
    compat_issue_for matrix vb p ≠ [] ↔
      ∃ rule req, alookup p matrix = some rule ∧
        alookup "velocity" rule.requires = some req ∧
        (vb = none ∨ ∃ b, vb = some b ∧ b < req.min_build) := by
  cases hm : alookup p matrix with
  | none => simp [compat_issue_for, hm]
  | some rule =>
    cases hr : alookup "velocity" rule.requires with
    | none => simp [compat_issue_for, hm, hr]
    | some req =>
      cases vb with
      | none => simp [compat_issue_for, hm, hr]
      | some b =>
        by_cases hb : b < req.min_build
        · simp [compat_issue_for, hm, hr, hb]
        · simp [compat_issue_for, hm, hr, hb]

/-- C1 counterexample: with a candidate plugin that has a velocity
requirement and a probe that cannot determine the build, the gate records
only the soft warning, yet returns ok = false: the warning is appended to
the same issues list that decides the ok flag, so a warning alone does
block. -/
theorem c1_counterexample :
    check_infrastructure_compatibility COMPATIBILITY_MATRIX none
        ["Geyser-Velocity"] =
      (false, ["⚠ Geyser-Velocity: Cannot verify Velocity version (could not read logs)"]) := by
  decide

/-- C1 amended: check_infrastructure_compatibility returns ok = false if and
only if at least one issue was recorded, where an issue is recorded for a
candidate plugin exactly when it has a velocity requirement in the matrix
and either the probe could not determine a build (the soft warning, which
therefore also blocks) or the detected build is below the rule minimum. -/
theorem c1_gate_blocks_iff_issue_recorded (matrix : List (String × CompatRule))
    (velocity_build : Option Nat) (plugins : List String) :
    (check_infrastructure_compatibility matrix velocity_build plugins).1 = false ↔
      ∃ p ∈ plugins, ∃ rule req, alookup p matrix = some rule ∧
        alookup "velocity" rule.requires = some req ∧
        (velocity_build = none ∨
          ∃ b, velocity_build = some b ∧ b < req.min_build) := by
  have hmain :
      (check_infrastructure_compatibility matrix velocity_build plugins).1 = false ↔
        ¬(plugins.foldl
            (fun acc p => acc ++ compat_issue_for matrix velocity_build p) [] = []) := by
    unfold check_infrastructure_compatibility
    by_cases hi : plugins.foldl
        (fun acc p => acc ++ compat_issue_for matrix velocity_build p) [] = []
    · simp [hi]
    · simp [hi, List.isEmpty_iff]
  rw [hmain, foldl_append_eq_nil_iff]
  push_neg
  constructor
  · intro h
    rcases h (by rfl) with ⟨p, hp, hne⟩
    exact ⟨p, hp, (compat_issue_for_ne_nil_iff matrix velocity_build p).mp hne⟩
  · rintro ⟨p, hp, hcond⟩ _
    exact ⟨p, hp, (compat_issue_for_ne_nil_iff matrix velocity_build p).mpr hcond⟩

/-- Substring containment over character lists (used to state that an issue
string names a plugin). -/
def containsSeq : List Char → List Char → Bool
  | [], needle => needle.isEmpty
  | h :: t, needle => needle.isPrefixOf (h :: t) || containsSeq t needle

/-- C8: for the candidate set consisting of the one plugin Geyser-Velocity,
whose matrix rule requires minimum Velocity build 500, a detected build of
400 makes the gate return ok = false with exactly one issue, and that issue
names the plugin. -/
theorem c8_min_build_violation_blocks :
    (check_infrastructure_compatibility COMPATIBILITY_MATRIX (some 400)
        ["Geyser-Velocity"]).1 = false ∧
    (check_infrastructure_compatibility COMPATIBILITY_MATRIX (some 400)
        ["Geyser-Velocity"]).2.length = 1 ∧
    ∀ issue ∈ (check_infrastructure_compatibility COMPATIBILITY_MATRIX (some 400)
        ["Geyser-Velocity"]).2,
      containsSeq issue.data "Geyser-Velocity".data = true := by
  refine ⟨by decide, by decide, by decide⟩

/-! ## UpdateOrchestrator: MinecraftPluginUpdater.deploy_all_updates and
update_deployment_state (updater.py 194-335)

SERVERS and MANAGED_PLUGINS (config.py) are passed as configuration;
self.updates_available and the loaded deployment state are passed
explicitly. The SSH side effects (deploy_to_server, restart_server) and
hashlib/filesystem (calculate_hash over the downloaded jar) are environment
functions; datetime.now is the ts parameter. deploy_all_updates in the
source can raise KeyError (MANAGED_PLUGINS[plugin_name], and
updates_available[plugin_name] in the verification loop): a raised exception
is modelled as the result none. verify_plugin_loaded results are ignored by
the source, and commit_to_git never changes the deployment state, so
neither affects the modelled result. -/

/-- MANAGED_PLUGINS entry fields used by the orchestrator. -/
structure PluginCfg where
  source : String
  platforms : List String
deriving DecidableEq, Repr

/-- SERVERS entry. -/
structure ServerCfg where
  uuid : String
  platform : String
  plugins : List String
deriving DecidableEq, Repr

/-- One updates_available entry: current and latest version plus the source
filename of the downloaded artifact. -/
structure UpdateInfo where
  current : String
  latest : String
  filename : String
deriving DecidableEq, Repr

/-- Persisted DeploymentRecord as written by update_deployment_state. -/
structure DeploymentRecord where
  version : String
  deployed_at : String
  deployed_by : String
  sha256 : String
  previous_version : String
  note : String
deriving DecidableEq, Repr

/-- Per-server entry of deployment-state.json. -/
structure ServerState where
  platform : String
  uuid : String
  deployed_plugins : List (String × DeploymentRecord)
deriving DecidableEq, Repr

/-- deployment-state.json: last_updated plus the servers map (a missing
"servers" key behaves as the empty map in every source operation). -/
structure DeploymentState where
  last_updated : Option String
  servers : List (String × ServerState)
deriving DecidableEq, Repr

/-- Collaborator outcomes consumed by deploy_all_updates: the preflight
verdict, the Velocity build probe, per-(server, plugin) deploy_to_server
outcomes, per-server restart_server outcomes, and the sha256 of a
downloaded jar by filename (none = file missing, recorded as "unknown"). -/
structure DeployEnv where
  preflight_ok : Bool
  velocity_build : Option Nat
  deploy_ok : String → String → Bool
  restart_ok : String → Bool
  jar_hash : String → Option String

/-- Result of deploy_all_updates: the returned boolean, every
deploy_to_server call made (server, plugin) in order, the
deployment_success map (server to successfully deployed plugins), every
restart_server call made, and the deployment state afterwards. -/
structure DeployResult where
  ok : Bool
  deploy_calls : List (String × String)
  deploy_succeeded : List (String × List String)
  restart_calls : List String
  state : DeploymentState
deriving DecidableEq, Repr

/-- Servers whose platform is in the plugin's platform list
(updater.py 237-240), in SERVERS order. -/
def target_servers_for (serversCfg : List (String × ServerCfg))
    (platforms : List String) : List String :=
  (serversCfg.filter (fun sc => platforms.contains sc.2.platform)).map (·.1)

/-- The per-plugin deployment loop of deploy_all_updates (updater.py
230-257): look up the plugin config (KeyError = none), deploy to every
target server counting successes, record successes in deployment_success,
and abort with False as soon as one plugin does not reach all its targets. -/
def deployLoop (dep : String → String → Bool)
    (serversCfg : List (String × ServerCfg))
    (pluginsCfg : List (String × PluginCfg)) :
    List (String × String) → List (String × String) →
    List (String × List String) →
    Option (Bool × List (String × String) × List (String × List String))
  | [], calls, dsucc => some (true, calls, dsucc)
  | (p, _jar) :: rest, calls, dsucc =>
    match alookup p pluginsCfg with
    | none => none
    | some cfg =>
      let targets := target_servers_for serversCfg cfg.platforms
      let calls' := calls ++ targets.map (fun s => (s, p))
      let succ := targets.filter (fun s => dep s p)
      let dsucc' := succ.foldl (fun m s => aappend s p m) dsucc
      if succ.length = targets.length then
        deployLoop dep serversCfg pluginsCfg rest calls' dsucc'
      else
        some (false, calls', dsucc')

/-- The restart loop of deploy_all_updates (updater.py 259-264): restart the
affected servers in deployment_success order, returning False at the first
failure; also returns the restart calls actually made. -/
def restartLoop (rok : String → Bool) :
    List String → List String → Bool × List String
  | [], done => (true, done)
  | s :: rest, done =>
    if rok s then restartLoop rok rest (done ++ [s])
    else (false, done ++ [s])

/-- The DeploymentRecord written for one plugin (updater.py 321-328). -/
def mkRecord (u : UpdateInfo) (ts : String) (sha : String) : DeploymentRecord :=
  DeploymentRecord.mk u.latest ts "minecraft-plugin-manager" sha u.current
    "Automated deployment"

/-- MinecraftPluginUpdater.update_deployment_state (updater.py 289-335):
for each deployed server, skip it silently when it has no entry under
"servers"; otherwise overwrite the DeploymentRecord of each deployed plugin
that is in updates_available; finally set last_updated. -/
def update_deployment_state (jar_hash : String → Option String)
    (updates_available : List (String × UpdateInfo)) (st : DeploymentState)
    (deployments : List (String × List String)) (ts : String) :
    DeploymentState :=
  let servers' := deployments.foldl (fun srvs entry =>
    match alookup entry.1 srvs with
    | none => srvs
    | some sst =>
      let dp' := entry.2.foldl (fun dp pname =>
        match alookup pname updates_available with
        | none => dp
        | some u =>
          aset pname (mkRecord u ts ((jar_hash u.filename).getD "unknown")) dp)
        sst.deployed_plugins
      aset entry.1 { sst with deployed_plugins := dp' } srvs) st.servers
  DeploymentState.mk (some ts) servers'

/-- MinecraftPluginUpdater.deploy_all_updates (updater.py 194-287):
preflight, compatibility gate over the download keys, per-plugin deployment
with all-or-nothing abort, restarts, then (live mode only) the verification
loop (whose per-plugin updates_available lookup can raise KeyError = none;
its boolean results are ignored) and the state update. In dry-run mode
deploy_to_server and restart_server return True without side effects. -/
def deploy_all_updates (env : DeployEnv) (matrix : List (String × CompatRule))
    (serversCfg : List (String × ServerCfg))
    (pluginsCfg : List (String × PluginCfg))
    (updates_available : List (String × UpdateInfo)) (st0 : DeploymentState)
    (dry_run : Bool) (ts : String) (downloads : List (String × String)) :
    Option DeployResult :=
  if ¬ env.preflight_ok then
    some (DeployResult.mk false [] [] [] st0)
  else
    let compat := check_infrastructure_compatibility matrix env.velocity_build
      (downloads.map (·.1))
    if ¬ compat.1 then
      some (DeployResult.mk false [] [] [] st0)
    else
      let dep := fun s p => dry_run || env.deploy_ok s p
      match deployLoop dep serversCfg pluginsCfg downloads [] [] with
      | none => none
      | some (ok, calls, dsucc) =>
        if ¬ ok then
          some (DeployResult.mk false calls dsucc [] st0)
        else
          let rok := fun s => dry_run || env.restart_ok s
          let rres := restartLoop rok (dsucc.map (·.1)) []
          if ¬ rres.1 then
            some (DeployResult.mk false calls dsucc rres.2 st0)
          else if dry_run then
            some (DeployResult.mk true calls dsucc rres.2 st0)
          else if dsucc.all
              (fun e => e.2.all (fun p => (alookup p updates_available).isSome)) then
            some (DeployResult.mk true calls dsucc rres.2
              (update_deployment_state env.jar_hash updates_available st0 dsucc ts))
          else
            none

/-- C4: when the preflight checks fail, deploy_all_updates returns False
without a single deploy_to_server call, without a restart, and with the
persisted deployment state untouched. -/
theorem c4_preflight_failure_aborts_everything (env : DeployEnv)
    (matrix : List (String × CompatRule))
    (serversCfg : List (String × ServerCfg))
    (pluginsCfg : List (String × PluginCfg))
    (ua : List (String × UpdateInfo)) (st0 : DeploymentState)
    (dry_run : Bool) (ts : String) (downloads : List (String × String))
    (h : env.preflight_ok = false) :
    deploy_all_updates env matrix serversCfg pluginsCfg ua st0 dry_run ts
        downloads =
      some (DeployResult.mk false [] [] [] st0) := by
  simp [deploy_all_updates, h]

/-- Witness for C4 at concrete inputs. -/
theorem c4_preflight_failure_aborts_everything_witness :
    deploy_all_updates
        (DeployEnv.mk false none (fun _ _ => true) (fun _ => true) (fun _ => none))
        [] [("alpha", ServerCfg.mk "u1" "paper" ["X"])]
        [("X", PluginCfg.mk "modrinth" ["paper"])]
        [("X", UpdateInfo.mk "1.0" "1.1" "X.jar")]
        (DeploymentState.mk none []) false "t" [("X", "downloads/X.jar")] =
      some (DeployResult.mk false [] [] [] (DeploymentState.mk none [])) :=
  c4_preflight_failure_aborts_everything _ _ _ _ _ _ _ _ _ rfl

lemma deployLoop_shortfall (dep : String → String → Bool)
    (serversCfg : List (String × ServerCfg))
    (pluginsCfg : List (String × PluginCfg)) :
    ∀ (downloads : List (String × String)) (calls : List (String × String))
      (dsucc : List (String × List String)),
      (∀ pj ∈ downloads, (alookup pj.1 pluginsCfg).isSome = true) →
      (∃ pj ∈ downloads, ∃ cfg, alookup pj.1 pluginsCfg = some cfg ∧
        ((target_servers_for serversCfg cfg.platforms).filter
            (fun s => dep s pj.1)).length <
          (target_servers_for serversCfg cfg.platforms).length) →
      ∃ calls' dsucc',
        deployLoop dep serversCfg pluginsCfg downloads calls dsucc =
          some (false, calls', dsucc') := by
  intro downloads
  induction downloads with
  | nil =>
    rintro _ _ _ ⟨pj, hpj, _⟩
    exact absurd hpj (List.not_mem_nil pj)
  | cons hd rest ih =>
    rintro calls dsucc hcfg ⟨pj, hpj, cfg, hlk, hlt⟩
    obtain ⟨p, jar⟩ := hd
    rcases List.mem_cons.mp hpj with heq | hpjrest
    · subst heq
      have hlk' : alookup p pluginsCfg = some cfg := hlk
      have hne : ¬ ((target_servers_for serversCfg cfg.platforms).filter
          (fun s => dep s p)).length =
            (target_servers_for serversCfg cfg.platforms).length := by
        have : ((target_servers_for serversCfg cfg.platforms).filter
            (fun s => dep s p)).length <
              (target_servers_for serversCfg cfg.platforms).length := hlt
        omega
      simp only [deployLoop, hlk']
      rw [if_neg hne]
      exact ⟨_, _, rfl⟩
    · have hhd := hcfg (p, jar) (List.mem_cons_self _ _)
      obtain ⟨chd, hchd⟩ := Option.isSome_iff_exists.mp hhd
      have hchd' : alookup p pluginsCfg = some chd := hchd
      simp only [deployLoop, hchd']
      by_cases hfull :
          ((target_servers_for serversCfg chd.platforms).filter
              (fun s => dep s p)).length =
            (target_servers_for serversCfg chd.platforms).length
      · rw [if_pos hfull]
        exact ih _ _ (fun q hq => hcfg q (List.mem_cons_of_mem _ hq))
          ⟨pj, hpjrest, cfg, hlk, hlt⟩
      · rw [if_neg hfull]
        exact ⟨_, _, rfl⟩

/-- C3: in live mode, whenever some downloaded plugin would not succeed on
all of its target servers (the count of target servers on which
deploy_to_server succeeds is below the target count), deploy_all_updates
returns False overall. -/
theorem c3_partial_deployment_fails_overall (env : DeployEnv)
    (matrix : List (String × CompatRule))
    (serversCfg : List (String × ServerCfg))
    (pluginsCfg : List (String × PluginCfg))
    (ua : List (String × UpdateInfo)) (st0 : DeploymentState)
    (ts : String) (downloads : List (String × String))
    (hcfg : ∀ pj ∈ downloads, (alookup pj.1 pluginsCfg).isSome = true)
    (hshort : ∃ pj ∈ downloads, ∃ cfg, alookup pj.1 pluginsCfg = some cfg ∧
      ((target_servers_for serversCfg cfg.platforms).filter
          (fun s => env.deploy_ok s pj.1)).length <
        (target_servers_for serversCfg cfg.platforms).length) :
    ∃ res, deploy_all_updates env matrix serversCfg pluginsCfg ua st0 false ts
        downloads = some res ∧ res.ok = false := by
  by_cases hpf : env.preflight_ok
  · by_cases hcompat : (check_infrastructure_compatibility matrix
        env.velocity_build (downloads.map (·.1))).1
    · have hdep : (fun s p => false || env.deploy_ok s p) = env.deploy_ok := by
        funext s p
        simp
      obtain ⟨calls', dsucc', hloop⟩ :=
        deployLoop_shortfall env.deploy_ok serversCfg pluginsCfg downloads [] []
          hcfg hshort
      refine ⟨DeployResult.mk false calls' dsucc' [] st0, ?_, rfl⟩
      unfold deploy_all_updates
      rw [if_neg (by simp [hpf]), if_neg (by simp [hcompat])]
      simp only [hdep, hloop]
      rfl
    · refine ⟨DeployResult.mk false [] [] [] st0, ?_, rfl⟩
      unfold deploy_all_updates
      rw [if_neg (by simp [hpf]), if_pos (by simp [hcompat])]
  · refine ⟨DeployResult.mk false [] [] [] st0, ?_, rfl⟩
    unfold deploy_all_updates
    rw [if_pos (by simp [hpf])]

/-- Witness for C3: one plugin with two paper target servers, deployment
succeeding on alpha and failing on beta. -/
theorem c3_partial_deployment_fails_overall_witness :
    ∃ res, deploy_all_updates
        (DeployEnv.mk true none (fun s _ => s = "alpha") (fun _ => true)
          (fun _ => none))
        [] [("alpha", ServerCfg.mk "u1" "paper" ["X"]),
            ("beta", ServerCfg.mk "u2" "paper" ["X"])]
        [("X", PluginCfg.mk "modrinth" ["paper"])]
        [("X", UpdateInfo.mk "1.0" "1.1" "X.jar")]
        (DeploymentState.mk none []) false "t" [("X", "downloads/X.jar")] =
      some res ∧ res.ok = false :=
  c3_partial_deployment_fails_overall _ _ _ _ _ _ _ _
    (by decide)
    ⟨("X", "downloads/X.jar"), by decide,
      PluginCfg.mk "modrinth" ["paper"], by decide, by decide⟩

/-- C10: update_deployment_state silently skips a deployed server that has
no entry under "servers" in the loaded deployment state: the whole update is
the same as if that server's entry were not in the deployments map at all
(so no DeploymentRecord is created or modified for any of its plugins and
every other entry is untouched); and deploy_all_updates nevertheless returns
overall success, shown for a fully succeeding live run whose only target
server is absent from the state (the final state still has no record of the
deployment, only a refreshed last_updated). -/
theorem c10_unknown_server_skipped_but_success
    (jar_hash : String → Option String) (ua : List (String × UpdateInfo))
    (st : DeploymentState) (s : String) (ps : List String)
    (rest : List (String × List String)) (ts : String)
    (h : alookup s st.servers = none) :
    update_deployment_state jar_hash ua st ((s, ps) :: rest) ts =
        update_deployment_state jar_hash ua st rest ts ∧
    deploy_all_updates
        (DeployEnv.mk true none (fun _ _ => true) (fun _ => true)
          (fun _ => some "h"))
        [] [("gamma", ServerCfg.mk "u9" "paper" ["X"])]
        [("X", PluginCfg.mk "modrinth" ["paper"])]
        [("X", UpdateInfo.mk "1.0" "1.1" "X.jar")]
        (DeploymentState.mk (some "old") []) false "ts2"
        [("X", "downloads/X.jar")] =
      some (DeployResult.mk true [("gamma", "X")] [("gamma", ["X"])] ["gamma"]
        (DeploymentState.mk (some "ts2") [])) := by
  constructor
  · simp only [update_deployment_state, List.foldl_cons, h]
  · decide

/-- Witness for C10 at concrete inputs. -/
theorem c10_unknown_server_skipped_but_success_witness :
    update_deployment_state (fun _ => none) [] (DeploymentState.mk none [])
        [("s", ["X"])] "t" =
      update_deployment_state (fun _ => none) [] (DeploymentState.mk none [])
        [] "t" :=
  (c10_unknown_server_skipped_but_success (fun _ => none) []
    (DeploymentState.mk none []) "s" ["X"] [] "t" (by decide)).1

/-! ## ConsistencyAuditor: MinecraftPluginUpdater.check_version_consistency
(updater.py 456-548)

Servers are grouped by platform (insertion order); groups with fewer than
two members are skipped; for each plugin deployed anywhere in a group the
per-member versions are collected (None for a member with no record); more
than one distinct non-absent version yields a version-skew report, otherwise
any absent member yields a missing report carrying the absent members. -/

/-- One drift report as built by check_version_consistency: the platform,
the per-member version map (none = NOT INSTALLED), the distinct non-absent
versions, and, only for missing-classified reports, the absent members. -/
structure DriftReport where
  platform : String
  servers : List (String × Option String)
  unique_versions : List String
  missing : Option (List String)
deriving DecidableEq, Repr

/-- Group server names by platform in SERVERS insertion order
(updater.py 470-475). -/
def groupByPlatform (serversCfg : List (String × ServerCfg)) :
    List (String × List String) :=
  serversCfg.foldl (fun acc sc => aappend sc.2.platform sc.1 acc) []

/-- deployed_plugins of one server from the deployment state, empty when the
server has no entry (updater.py 487-493). -/
def server_plugins_for (st : DeploymentState) (s : String) :
    List (String × DeploymentRecord) :=
  match alookup s st.servers with
  | none => []
  | some sst => sst.deployed_plugins

/-- The version of plugin p on server s as seen by the auditor: none when
the server has no DeploymentRecord for p. -/
def versionAt (st : DeploymentState) (s p : String) : Option String :=
  (alookup p (server_plugins_for st s)).map (·.version)

/-- Per-member version collection for one plugin (updater.py 502-508). -/
def versionsFor (st : DeploymentState) (members : List String) (p : String) :
    List (String × Option String) :=
  members.map (fun s => (s, versionAt st s p))

/-- Order-preserving deduplication (first occurrences kept), modelling the
set of collected values. -/
def dedupSeen {α : Type} [DecidableEq α] (seen : List α) :
    List α → List α
  | [] => []
  | x :: xs =>
    if x ∈ seen then dedupSeen seen xs else x :: dedupSeen (x :: seen) xs

/-- Deduplicate keeping first occurrences. -/
def dedupKF {α : Type} [DecidableEq α] (l : List α) : List α :=
  dedupSeen [] l

/-- Insert into a sorted list of strings (ascending). -/
def insertSorted (x : String) : List String → List String
  | [] => [x]
  | y :: ys => if y < x then y :: insertSorted x ys else x :: y :: ys

/-- Insertion sort over strings, modelling Python sorted() over a set of
plugin names. -/
def sortStrings : List String → List String
  | [] => []
  | x :: xs => insertSorted x (sortStrings xs)

/-- All plugin-name keys deployed anywhere among the group members. -/
def memberPluginKeys (st : DeploymentState) (members : List String) :
    List String :=
  members.foldr (fun s acc => (server_plugins_for st s).map (·.1) ++ acc) []

/-- The sorted set of plugins deployed anywhere in the group
(updater.py 496-501). -/
def all_plugins_for (st : DeploymentState) (members : List String) :
    List String :=
  sortStrings (dedupKF (memberPluginKeys st members))

/-- Classification of one plugin within one platform group
(updater.py 502-546): more than one distinct non-absent version is a skew
report (no missing field); otherwise any absent member is a missing report
listing the absent members; a single consistent version with no absentee
produces no report. -/
def classify (st : DeploymentState) (platform : String)
    (members : List String) (p : String) : Option DriftReport :=
  let versions := versionsFor st members p
  let uniq := dedupKF (versions.filterMap (·.2))
  if 1 < uniq.length then
    some (DriftReport.mk platform versions uniq none)
  else if versions.any (fun sv => sv.2.isNone) then
    some (DriftReport.mk platform versions uniq
      (some ((versions.filter (fun sv => sv.2.isNone)).map (·.1))))
  else
    none

/-- MinecraftPluginUpdater.check_version_consistency: fold the per-group,
per-plugin classification into the inconsistencies map, skipping platform
groups with fewer than two members. -/
def check_version_consistency (serversCfg : List (String × ServerCfg))
    (st : DeploymentState) : List (String × List DriftReport) :=
  (groupByPlatform serversCfg).foldl (fun acc g =>
    if g.2.length < 2 then acc
    else (all_plugins_for st g.2).foldl (fun acc2 p =>
      match classify st g.1 g.2 p with
      | none => acc2
      | some rep => aappend p rep acc2) acc) []

lemma mem_dedupSeen {α : Type} [DecidableEq α] {x : α} :
    ∀ (l seen : List α), x ∈ dedupSeen seen l → x ∈ l := by
  intro l
  induction l with
  | nil => intro seen h; exact absurd h (List.not_mem_nil x)
  | cons y ys ih =>
    intro seen h
    simp only [dedupSeen] at h
    by_cases hy : y ∈ seen
    · rw [if_pos hy] at h
      exact List.mem_cons_of_mem _ (ih seen h)
    · rw [if_neg hy] at h
      rcases List.mem_cons.mp h with h1 | h2
      · exact h1 ▸ List.mem_cons_self _ _
      · exact List.mem_cons_of_mem _ (ih _ h2)

lemma mem_insertSorted {x y : String} :
    ∀ l : List String, x ∈ insertSorted y l → x = y ∨ x ∈ l := by
  intro l
  induction l with
  | nil =>
    intro h
    simp only [insertSorted] at h
    exact Or.inl (List.mem_singleton.mp h)
  | cons z zs ih =>
    intro h
    simp only [insertSorted] at h
    by_cases hz : z < y
    · rw [if_pos hz] at h
      rcases List.mem_cons.mp h with h1 | h2
      · exact Or.inr (h1 ▸ List.mem_cons_self _ _)
      · rcases ih h2 with h3 | h4
        · exact Or.inl h3
        · exact Or.inr (List.mem_cons_of_mem _ h4)
    · rw [if_neg hz] at h
      rcases List.mem_cons.mp h with h1 | h2
      · exact Or.inl h1
      · exact Or.inr h2

lemma mem_sortStrings {x : String} :
    ∀ l : List String, x ∈ sortStrings l → x ∈ l := by
  intro l
  induction l with
  | nil => intro h; exact absurd h (List.not_mem_nil x)
  | cons y ys ih =>
    intro h
    simp only [sortStrings] at h
    rcases mem_insertSorted _ h with h1 | h2
    · exact h1 ▸ List.mem_cons_self _ _
    · exact List.mem_cons_of_mem _ (ih h2)

lemma mem_memberPluginKeys {st : DeploymentState} {p : String} :
    ∀ members : List String, p ∈ memberPluginKeys st members →
      ∃ s ∈ members, p ∈ (server_plugins_for st s).map (·.1) := by
  intro members
  induction members with
  | nil => intro h; exact absurd h (List.not_mem_nil p)
  | cons s ss ih =>
    intro h
    rcases List.mem_append.mp h with h1 | h2
    · exact ⟨s, List.mem_cons_self _ _, h1⟩
    · obtain ⟨s', hs', hp'⟩ := ih h2
      exact ⟨s', List.mem_cons_of_mem _ hs', hp'⟩

lemma alookup_isSome_of_mem_keys {α : Type} {k : String} :
    ∀ l : List (String × α), k ∈ l.map (·.1) → ∃ v, alookup k l = some v := by
  intro l
  induction l with
  | nil => intro h; exact absurd h (List.not_mem_nil k)
  | cons kv rest ih =>
    intro h
    by_cases he : kv.1 = k
    · exact ⟨kv.2, by simp [alookup, he]⟩
    · rcases List.mem_cons.mp h with h1 | h2
      · exact absurd h1.symm he
      · obtain ⟨v, hv⟩ := ih h2
        exact ⟨v, by simp [alookup, he, hv]⟩

lemma dedupSeen_const {α : Type} [DecidableEq α] {v : α} :
    ∀ (l seen : List α), (∀ x ∈ l, x = v) →
      (v ∈ seen → dedupSeen seen l = []) ∧
        (dedupSeen seen l = [] ∨ dedupSeen seen l = [v]) := by
  intro l
  induction l with
  | nil => exact fun seen _ => ⟨fun _ => rfl, Or.inl rfl⟩
  | cons x xs ih =>
    intro seen hall
    have hx : x = v := hall x (List.mem_cons_self _ _)
    subst hx
    have hxs : ∀ y ∈ xs, y = x := fun y hy => hall y (List.mem_cons_of_mem _ hy)
    constructor
    · intro hseen
      simp only [dedupSeen, if_pos hseen]
      exact (ih seen hxs).1 hseen
    · by_cases hseen : x ∈ seen
      · simp only [dedupSeen, if_pos hseen]
        exact Or.inl ((ih seen hxs).1 hseen)
      · simp only [dedupSeen, if_neg hseen]
        have h2 := (ih (x :: seen) hxs).1 (List.mem_cons_self _ _)
        rw [h2]
        exact Or.inr rfl

lemma classify_none (st : DeploymentState) (pl : String)
    (members : List String) (p : String) (v0 : String) (s0 : String)
    (_hs0 : s0 ∈ members) (h0 : versionAt st s0 p = some v0)
    (hall : ∀ s ∈ members, versionAt st s p = versionAt st s0 p) :
    classify st pl members p = none := by
  have hver : ∀ sv ∈ versionsFor st members p, sv.2 = some v0 := by
    intro sv hsv
    obtain ⟨s, hs, hsv'⟩ := List.mem_map.mp hsv
    rw [← hsv']
    show versionAt st s p = some v0
    rw [hall s hs, h0]
  have huniq : ∀ x ∈ (versionsFor st members p).filterMap (·.2), x = v0 := by
    intro x hx
    obtain ⟨sv, hsv, hfx⟩ := List.mem_filterMap.mp hx
    have := hver sv hsv
    rw [this] at hfx
    exact (Option.some.inj hfx).symm
  have hlen : (dedupKF ((versionsFor st members p).filterMap (·.2))).length ≤ 1 := by
    rcases (dedupSeen_const _ [] huniq).2 with h | h
    · rw [dedupKF, h]; simp
    · rw [dedupKF, h]; simp
  have hany : (versionsFor st members p).any (fun sv => sv.2.isNone) = false := by
    rw [List.any_eq_false]
    intro sv hsv
    rw [hver sv hsv]
    simp
  unfold classify
  rw [if_neg (by omega), if_neg (by simp [hany])]

lemma foldl_classify_none (st : DeploymentState) (pl : String)
    (members : List String) :
    ∀ (plist : List String) (acc : List (String × List DriftReport)),
      (∀ p ∈ plist, classify st pl members p = none) →
      plist.foldl (fun acc2 p =>
        match classify st pl members p with
        | none => acc2
        | some rep => aappend p rep acc2) acc = acc := by
  intro plist
  induction plist with
  | nil => intro acc _; rfl
  | cons p ps ih =>
    intro acc hall
    rw [List.foldl_cons]
    have hp := hall p (List.mem_cons_self _ _)
    rw [hp]
    exact ih acc (fun q hq => hall q (List.mem_cons_of_mem _ hq))

lemma foldl_id {α β : Type} (f : β → α → β) (L : List α)
    (h : ∀ g ∈ L, ∀ acc, f acc g = acc) : ∀ acc, L.foldl f acc = acc := by
  induction L with
  | nil => intro acc; rfl
  | cons g gs ih =>
    intro acc
    rw [List.foldl_cons, h g (List.mem_cons_self _ _) acc]
    exact ih (fun g' hg' => h g' (List.mem_cons_of_mem _ hg')) acc

/-- Concrete audit scenario: a DeploymentRecord at version "1.0". -/
def auditRecord : DeploymentRecord :=
  DeploymentRecord.mk "1.0" "2025-01-01T00:00:00" "minecraft-plugin-manager"
    "deadbeef" "0.9" "Automated deployment"

/-- Concrete audit scenario: one platform group of three servers. -/
def auditServers : List (String × ServerCfg) :=
  [("A", ServerCfg.mk "ua" "paper" []),
   ("B", ServerCfg.mk "ub" "paper" []),
   ("C", ServerCfg.mk "uc" "paper" [])]

/-- Concrete audit scenario state: A and B run plugin X at "1.0", C has no
DeploymentRecord for X. -/
def auditState : DeploymentState :=
  DeploymentState.mk (some "t")
    [("A", ServerState.mk "paper" "ua" [("X", auditRecord)]),
     ("B", ServerState.mk "paper" "ub" [("X", auditRecord)]),
     ("C", ServerState.mk "paper" "uc" [])]

/-- C7: over a platform group of three servers where A and B run plugin X at
"1.0" and C has no record of X, check_version_consistency yields exactly one
report for X, classified as missing (the missing list holds C, and the
report is not a version skew since the distinct-version list is just
["1.0"]); and whenever every group member reports the identical version for
every plugin, the returned map is empty. -/
theorem c7_consistency_audit_missing_vs_skew :
    check_version_consistency auditServers auditState =
      [("X", [DriftReport.mk "paper"
        [("A", some "1.0"), ("B", some "1.0"), ("C", none)] ["1.0"]
        (some ["C"])])] ∧
    ∀ (serversCfg : List (String × ServerCfg)) (st : DeploymentState),
      (∀ g ∈ groupByPlatform serversCfg, ∀ p : String,
        ∀ s1 ∈ g.2, ∀ s2 ∈ g.2, versionAt st s1 p = versionAt st s2 p) →
      check_version_consistency serversCfg st = [] := by
  constructor
  · decide
  · intro serversCfg st H
    unfold check_version_consistency
    apply foldl_id
    intro g hg acc
    by_cases hlen : g.2.length < 2
    · rw [if_pos hlen]
    · rw [if_neg hlen]
      apply foldl_classify_none
      intro p hp
      obtain ⟨s0, hs0, hpin⟩ := mem_memberPluginKeys g.2
        (mem_dedupSeen _ _ (mem_sortStrings _ hp))
      obtain ⟨rec, hrec⟩ := alookup_isSome_of_mem_keys _ hpin
      have h0 : versionAt st s0 p = some rec.version := by
        simp [versionAt, hrec]
      exact classify_none st g.1 g.2 p rec.version s0 hs0 h0
        (fun s hs => H g hg p s hs s0 hs0)

/-- Witness for C7's universal part: two servers with identical deployed
plugins produce an empty audit. -/
theorem c7_consistency_audit_missing_vs_skew_witness :
    check_version_consistency
        [("A", ServerCfg.mk "ua" "paper" []), ("B", ServerCfg.mk "ub" "paper" [])]
        (DeploymentState.mk (some "t")
          [("A", ServerState.mk "paper" "ua" [("X", auditRecord)]),
           ("B", ServerState.mk "paper" "ub" [("X", auditRecord)])]) = [] := by
  apply c7_consistency_audit_missing_vs_skew.2
  intro g hg p s1 hs1 s2 hs2
  have hgrp : groupByPlatform
      [("A", ServerCfg.mk "ua" "paper" []), ("B", ServerCfg.mk "ub" "paper" [])] =
      [("paper", ["A", "B"])] := by decide
  rw [hgrp] at hg
  have hge : g = ("paper", ["A", "B"]) := List.mem_singleton.mp hg
  subst hge
  have hm1 : s1 = "A" ∨ s1 = "B" := by simpa using hs1
  have hm2 : s2 = "A" ∨ s2 = "B" := by simpa using hs2
  have hsp : ∀ s, s = "A" ∨ s = "B" →
      server_plugins_for (DeploymentState.mk (some "t")
        [("A", ServerState.mk "paper" "ua" [("X", auditRecord)]),
         ("B", ServerState.mk "paper" "ub" [("X", auditRecord)])]) s =
      [("X", auditRecord)] := by
    rintro s (rfl | rfl) <;> rfl
  unfold versionAt
  rw [hsp s1 hm1, hsp s2 hm2]

end MPM
